import Mathlib

/-!
Verification of the treasury ledger specification of the
awakenings-virtual-aa-group repository, together with properties of the
frontend components (TrustedServantsAdmin, ProfileForm, members page).

The repository contains the frontend components as TypeScript source; the
treasury ledger core is described in the repository documentation only
(README "Budget & Treasury" sketch), so the ledger operations below are
modelled from the specification's words.
-/

/-- Modelled from the spec: account `type` classification
(asset, liability, equity, income, expense); the ledger backend code is
missing from the repository. -/
inductive AccountType where
  | asset | liability | equity | income | expense
deriving DecidableEq, Repr

/-- Modelled from the spec: the Account record of the Account Registry
(code, name, type, active flag, optional parent code). -/
structure Account where
  code : String
  name : String
  type : AccountType
  active : Bool
  parent_code : Option String
deriving DecidableEq, Repr

/-- Modelled from the spec: a JournalLine (account code, signed fixed-point
amount in minor units, optional line memo); debits positive, credits
negative. -/
structure JournalLine where
  account_code : String
  amount : Int
  line_memo : Option String
deriving DecidableEq, Repr

/-- Modelled from the spec: a JournalEntry (generated id, immutable
timestamp, memo, source reference, ordered lines, optional idempotency
key). -/
structure JournalEntry where
  id : Nat
  posted_at : Nat
  memo : String
  source_ref : String
  lines : List JournalLine
  idempotency_key : Option String
deriving DecidableEq, Repr

/-- Modelled from the spec: the Expense workflow states
claimed / approved / rejected / paid. -/
inductive ExpenseState where
  | claimed | approved | rejected | paid
deriving DecidableEq, Repr

/-- Modelled from the spec: the Expense record of the Expense Workflow. -/
structure Expense where
  id : Nat
  amount : Int
  account_code : String
  description : String
  requested_by : String
  state : ExpenseState
  approved_by : Option String
  paid_journal_entry_id : Option Nat
deriving DecidableEq, Repr

/-- Modelled from the spec: contribution method (cash / electronic). -/
inductive Method where
  | cash | electronic
deriving DecidableEq, Repr

/-- Modelled from the spec: one contribution record of a ContributionBatch
(amount, method, note). -/
structure ContribItem where
  amount : Int
  method : Method
  note : String
deriving DecidableEq, Repr

/-- Modelled from the spec: a ContributionBatch (id, optional occurrence
reference, contribution records, posted journal entry back-reference set
once committed). -/
structure ContributionBatch where
  id : Nat
  occurrence_ref : Option String
  entries : List ContribItem
  posted_journal_entry_id : Option Nat
deriving DecidableEq, Repr

/-- Modelled from the spec: a BudgetLine (fiscal year, account code,
budgeted amount). -/
structure BudgetLine where
  fiscal_year_id : Nat
  account_code : String
  budgeted_amount : Int
deriving DecidableEq, Repr

/-- Modelled from the spec: a FiscalYear with its date range. -/
structure FiscalYear where
  id : Nat
  startTime : Nat
  endTime : Nat
deriving DecidableEq, Repr

/-- Modelled from the spec: an IdempotencyRecord mapping a caller-supplied
key to the journal entry id it produced. -/
structure IdempotencyRecord where
  key : String
  result_journal_entry_id : Nat
deriving DecidableEq, Repr

/-- Modelled from the spec: the error taxonomy of the ledger operations. -/
inductive LedgerError where
  | MalformedEntry
  | UnknownOrInactiveAccount
  | UnbalancedEntry
  | DuplicateAccount
  | BatchAlreadyPosted
  | EmptyBatch
  | InvalidAmount
  | SelfApprovalForbidden
  | InvalidTransition
  | NotFound
deriving DecidableEq, Repr

/-- Modelled from the spec: the persisted state of the ledger subsystem
(accounts, append-only journal, batches, expenses, budget data,
idempotency records, optional per-account balance cache, id counters and
a clock). -/
structure LedgerState where
  accounts : List Account
  entries : List JournalEntry
  batches : List ContributionBatch
  expenses : List Expense
  budget_lines : List BudgetLine
  fiscal_years : List FiscalYear
  idempotency_records : List IdempotencyRecord
  balance_cache : List (String × Int)
  next_entry_id : Nat
  next_batch_id : Nat
  next_expense_id : Nat
  now : Nat
deriving DecidableEq, Repr

/-- Modelled from the spec: the empty initial ledger state. -/
def initState : LedgerState :=
  ⟨[], [], [], [], [], [], [], [], 1, 1, 1, 0⟩

/-- Modelled from the spec: an account code resolves to an active account. -/
def accountActive (accounts : List Account) (code : String) : Bool :=
  accounts.any fun a => a.code == code && a.active

/-- Modelled from the spec: the sum of the signed line amounts of an entry. -/
def linesTotal (lines : List JournalLine) : Int :=
  (lines.map (·.amount)).sum

/-- Modelled from the spec: the sum of the line amounts of one entry that
hit a given account. -/
def lineSumFor (code : String) (lines : List JournalLine) : Int :=
  ((lines.filter fun l => l.account_code == code).map (·.amount)).sum

/-- Modelled from the spec: look up an idempotency key among the recorded
key-to-entry mappings. -/
def lookupIdem (key : String) (recs : List IdempotencyRecord) : Option Nat :=
  (recs.find? fun r => r.key == key).map (·.result_journal_entry_id)

/-- Modelled from the spec: the cached incremental balance of one account
(zero when the account has no cache row). -/
def cacheLookup : List (String × Int) → String → Int
  | [], _ => 0
  | (c, v) :: rest, code => if c == code then v else cacheLookup rest code

/-- Modelled from the spec: add an amount to one account's cached balance. -/
def cacheAdd : List (String × Int) → String → Int → List (String × Int)
  | [], code, amt => [(code, amt)]
  | (c, v) :: rest, code, amt =>
    if c == code then (c, v + amt) :: rest else (c, v) :: cacheAdd rest code amt

/-- Modelled from the spec: update the balance cache transactionally with
every line of a committed entry. -/
def cacheApply (cache : List (String × Int)) (lines : List JournalLine) :
    List (String × Int) :=
  lines.foldl (fun c l => cacheAdd c l.account_code l.amount) cache

/-- Modelled from the spec: full replay of the journal for one account —
the sum of all journal line amounts for that account over all committed
entries. -/
def replayBalance (code : String) (entries : List JournalEntry) : Int :=
  (entries.map fun e => lineSumFor code e.lines).sum

/-- Modelled from the spec: commit a validated entry — assign the next
sequence number and the current timestamp, append the entry and its lines
atomically, record the idempotency key in the same transaction and update
the balance cache. -/
def commitEntry (lines : List JournalLine) (memo source_ref : String)
    (key : Option String) (s : LedgerState) : Nat × LedgerState :=
  let e : JournalEntry :=
    ⟨s.next_entry_id, s.now, memo, source_ref, lines, key⟩
  (e.id,
    { s with
      entries := s.entries ++ [e]
      idempotency_records :=
        match key with
        | some k => s.idempotency_records ++ [⟨k, e.id⟩]
        | none => s.idempotency_records
      balance_cache := cacheApply s.balance_cache lines
      next_entry_id := s.next_entry_id + 1 })

/-- Modelled from the spec: `postEntry(lines, memo, sourceRef,
idempotencyKey?)` of the Journal Engine, missing from the repository.
Validation sequence: (1) at least two lines else `MalformedEntry`;
(2) every account code resolves to an active account else
`UnknownOrInactiveAccount`; (3) the amounts sum to zero exactly else
`UnbalancedEntry`; (4) an already-recorded idempotency key returns the
previously committed entry's id with no new write; otherwise the entry is
committed atomically. -/
def postEntry (lines : List JournalLine) (memo source_ref : String)
    (key : Option String) (s : LedgerState) :
    Except LedgerError (Nat × LedgerState) :=
  if lines.length < 2 then .error .MalformedEntry
  else if ¬ (∀ l ∈ lines, accountActive s.accounts l.account_code = true) then
    .error .UnknownOrInactiveAccount
  else if ¬ (linesTotal lines = 0) then .error .UnbalancedEntry
  else
    match key with
    | some k =>
      match lookupIdem k s.idempotency_records with
      | some prior => .ok (prior, s)
      | none => .ok (commitEntry lines memo source_ref key s)
    | none => .ok (commitEntry lines memo source_ref key s)

/-- Modelled from the spec: `createAccount(code, name, type, parentCode?)`
of the Account Registry; fails with `DuplicateAccount` if the code exists. -/
def createAccount (code name : String) (ty : AccountType)
    (parentCode : Option String) (s : LedgerState) :
    Except LedgerError LedgerState :=
  if s.accounts.any fun a => a.code == code then .error .DuplicateAccount
  else .ok { s with accounts := s.accounts ++ [⟨code, name, ty, true, parentCode⟩] }

/-- Lexicographic order on lists of character values. -/
def natListLe : List Nat → List Nat → Bool
  | [], _ => true
  | _ :: _, [] => false
  | a :: as, b :: bs =>
    if a < b then true else if b < a then false else natListLe as bs

/-- Modelled from the spec: lexicographic order on hierarchical account
codes, which gives the natural chart-of-accounts ordering. -/
def codeLe (a b : String) : Bool :=
  natListLe (a.toList.map Char.toNat) (b.toList.map Char.toNat)

/-- Modelled from the spec: insert an account into a list sorted by code. -/
def insertByCode (a : Account) : List Account → List Account
  | [] => [a]
  | b :: rest =>
    if codeLe a.code b.code then a :: b :: rest else b :: insertByCode a rest

/-- Modelled from the spec: sort accounts in code-ascending order. -/
def sortByCode (l : List Account) : List Account :=
  l.foldr insertByCode []

/-- Modelled from the spec: `listAccounts(filter)` of the Account Registry —
accounts matching the optional type/active filter, in `code` ascending
order. -/
def listAccounts (ty : Option AccountType) (act : Option Bool)
    (s : LedgerState) : List Account :=
  sortByCode (s.accounts.filter fun a =>
    (match ty with | some t => decide (a.type = t) | none => true) &&
    (match act with | some v => a.active == v | none => true))

/-- Modelled from the spec: `getBalance(accountCode, asOf)` of the Balance
Projector — sums all journal line amounts for the account over committed
entries with `posted_at ≤ asOf`. -/
def getBalance (code : String) (asOf : Nat) (s : LedgerState) : Int :=
  ((s.entries.filter fun e => decide (e.posted_at ≤ asOf)).map
    fun e => lineSumFor code e.lines).sum

/-- Generic keyed lookup in a list of records. -/
def findBy {α : Type} (key : α → Nat) (i : Nat) (l : List α) : Option α :=
  l.find? fun x => key x == i

/-- Generic keyed in-place update of a list of records. -/
def updBy {α : Type} (key : α → Nat) (i : Nat) (f : α → α) (l : List α) :
    List α :=
  l.map fun x => if key x == i then f x else x

/-- Modelled from the spec: look up an Expense record by id. -/
def findExpense (i : Nat) (s : LedgerState) : Option Expense :=
  findBy (·.id) i s.expenses

/-- Modelled from the spec: look up a ContributionBatch record by id. -/
def findBatch (i : Nat) (s : LedgerState) : Option ContributionBatch :=
  findBy (·.id) i s.batches

/-- Modelled from the spec: the receiving asset account for cash
contributions ("1000 Checking Account" of the chart of accounts). -/
def cashAccountCode : String := "1000"

/-- Modelled from the spec: the receiving asset account for electronic
contributions. -/
def electronicAccountCode : String := "1000"

/-- Modelled from the spec: the contributions income account
("4100 Seventh Tradition"). -/
def contributionsIncomeAccountCode : String := "4100"

/-- Modelled from the spec: the disbursing asset account credited by
expense payments. -/
def disbursingAccountCode : String := "1000"

/-- Modelled from the spec: `createBatch(entries, occurrenceRef?)` of the
Contribution Batch Processor — creates a draft batch with no journal
impact. -/
def createBatch (items : List ContribItem) (occ : Option String)
    (s : LedgerState) : Except LedgerError (Nat × LedgerState) :=
  let b : ContributionBatch := ⟨s.next_batch_id, occ, items, none⟩
  .ok (b.id,
    { s with batches := s.batches ++ [b], next_batch_id := s.next_batch_id + 1 })

/-- Modelled from the spec: the total of the batch's contribution records
for one method. -/
def methodTotal (m : Method) (items : List ContribItem) : Int :=
  ((items.filter fun it => decide (it.method = m)).map (·.amount)).sum

/-- Modelled from the spec: the total of the batch's contribution records. -/
def batchTotal (items : List ContribItem) : Int :=
  (items.map (·.amount)).sum

/-- Modelled from the spec: the journal lines built by `postBatch` — debit
lines for the receiving asset account(s) split by method, and one line
crediting the income account for the batch total. -/
def batchJournalLines (b : ContributionBatch) : List JournalLine :=
  let cash := methodTotal .cash b.entries
  let elec := methodTotal .electronic b.entries
  (if ¬ (cash = 0) then [⟨cashAccountCode, cash, none⟩] else []) ++
  (if ¬ (elec = 0) then [⟨electronicAccountCode, elec, none⟩] else []) ++
  [⟨contributionsIncomeAccountCode, -(batchTotal b.entries), none⟩]

/-- Modelled from the spec: `postBatch(batchId, idempotencyKey)` of the
Contribution Batch Processor — fails with `BatchAlreadyPosted` if the
batch is already posted (checked before calling the engine), with
`EmptyBatch` on a batch with zero entries; otherwise builds the journal
lines and calls the Journal Engine, then stores the back-reference. -/
def postBatch (batchId : Nat) (key : String) (s : LedgerState) :
    Except LedgerError (Nat × LedgerState) :=
  match findBatch batchId s with
  | none => .error .NotFound
  | some b =>
    if b.posted_journal_entry_id.isSome then .error .BatchAlreadyPosted
    else if b.entries.isEmpty then .error .EmptyBatch
    else
      match postEntry (batchJournalLines b) "contribution batch"
          ("batch:" ++ toString b.id) (some key) s with
      | .error e => .error e
      | .ok (eid, s') =>
        .ok (eid,
          { s' with
            batches := updBy (·.id) batchId
              (fun bb => { bb with posted_journal_entry_id := some eid })
              s'.batches })

/-- Modelled from the spec: `claim(amount, accountCode, description,
requestedBy)` of the Expense Workflow — a new Expense in state `claimed`;
fails with `InvalidAmount` if the amount is not positive. -/
def claim (amount : Int) (accountCode description requestedBy : String)
    (s : LedgerState) : Except LedgerError (Nat × LedgerState) :=
  if amount ≤ 0 then .error .InvalidAmount
  else
    let e : Expense :=
      ⟨s.next_expense_id, amount, accountCode, description, requestedBy,
        .claimed, none, none⟩
    .ok (e.id,
      { s with
        expenses := s.expenses ++ [e]
        next_expense_id := s.next_expense_id + 1 })

/-- Modelled from the spec: `approve(expenseId, approvedBy)` of the Expense
Workflow — fails with `SelfApprovalForbidden` whenever the approver equals
the original claimant, regardless of role; fails with `InvalidTransition`
if the state is not `claimed`. -/
def approve (expenseId : Nat) (approvedBy : String) (s : LedgerState) :
    Except LedgerError LedgerState :=
  match findExpense expenseId s with
  | none => .error .NotFound
  | some e =>
    if e.requested_by == approvedBy then .error .SelfApprovalForbidden
    else
      match e.state with
      | .claimed =>
        .ok { s with
          expenses := updBy (·.id) expenseId
            (fun ex =>
              { ex with state := ExpenseState.approved, approved_by := some approvedBy })
            s.expenses }
      | _ => .error .InvalidTransition

/-- Modelled from the spec: `reject(expenseId, reason)` of the Expense
Workflow — valid from `claimed` or `approved`; terminal. -/
def reject (expenseId : Nat) (reason : String) (s : LedgerState) :
    Except LedgerError LedgerState :=
  match findExpense expenseId s with
  | none => .error .NotFound
  | some e =>
    match e.state with
    | .claimed =>
      .ok { s with
        expenses := updBy (·.id) expenseId
          (fun ex => { ex with state := .rejected }) s.expenses }
    | .approved =>
      .ok { s with
        expenses := updBy (·.id) expenseId
          (fun ex => { ex with state := .rejected }) s.expenses }
    | _ => .error .InvalidTransition

/-- Modelled from the spec: `pay(expenseId, idempotencyKey)` of the Expense
Workflow — valid only from `approved`; builds a two-line journal entry
(debit the expense account, credit the disbursing asset account) via the
Journal Engine, stores the paid entry id and transitions to `paid`
(terminal). A repeated call with the same idempotency key on the already
paid Expense is a no-op returning the original entry id; if the engine
call fails, the Expense state is not advanced. -/
def pay (expenseId : Nat) (key : String) (s : LedgerState) :
    Except LedgerError (Nat × LedgerState) :=
  match findExpense expenseId s with
  | none => .error .NotFound
  | some e =>
    match e.state with
    | .paid =>
      match lookupIdem key s.idempotency_records, e.paid_journal_entry_id with
      | some prior, some pid =>
        if prior = pid then .ok (prior, s) else .error .InvalidTransition
      | _, _ => .error .InvalidTransition
    | .approved =>
      match postEntry
          [⟨e.account_code, e.amount, none⟩,
           ⟨disbursingAccountCode, -e.amount, none⟩]
          ("expense " ++ e.description) ("expense:" ++ toString e.id)
          (some key) s with
      | .error err => .error err
      | .ok (eid, s') =>
        .ok (eid,
          { s' with
            expenses := updBy (·.id) expenseId
              (fun ex =>
                { ex with state := ExpenseState.paid, paid_journal_entry_id := some eid })
              s'.expenses })
    | _ => .error .InvalidTransition

/-- Modelled from the spec: one row of the budget-vs-actual report. -/
structure BudgetRow where
  account_code : String
  budgeted : Int
  actual : Int
  variance : Int
  unbudgeted : Bool
deriving DecidableEq, Repr

/-- Modelled from the spec: the actual activity of one account inside a
fiscal year's date range. -/
def actualFor (code : String) (fy : FiscalYear) (s : LedgerState) : Int :=
  ((s.entries.filter fun e =>
      decide (fy.startTime ≤ e.posted_at) && decide (e.posted_at ≤ fy.endTime)).map
    fun e => lineSumFor code e.lines).sum

/-- Keep the first occurrence of each code, preserving order. -/
def dedupAux : List String → List String → List String
  | [], acc => acc.reverse
  | c :: rest, acc =>
    if c ∈ acc then dedupAux rest acc else dedupAux rest (c :: acc)

/-- Modelled from the spec: the account codes with journal activity inside
a fiscal year's date range, in order of first appearance. -/
def activityCodes (fy : FiscalYear) (s : LedgerState) : List String :=
  dedupAux
    (((s.entries.filter fun e =>
        decide (fy.startTime ≤ e.posted_at) &&
        decide (e.posted_at ≤ fy.endTime)).map
      fun e => e.lines.map (·.account_code)).flatten) []

/-- Modelled from the spec: `getBudgetVsActual(fiscalYearId)` of the Budget
Reporter — one row per BudgetLine of the fiscal year with
`variance = actual − budgeted`, plus rows for accounts with journal
activity but no BudgetLine (budget zero, flagged as unbudgeted). -/
def getBudgetVsActual (fyId : Nat) (s : LedgerState) : List BudgetRow :=
  match s.fiscal_years.find? fun f => f.id == fyId with
  | none => []
  | some fy =>
    let bls := s.budget_lines.filter fun b => b.fiscal_year_id == fyId
    let budgetRows := bls.map fun b =>
      let a := actualFor b.account_code fy s
      (⟨b.account_code, b.budgeted_amount, a, a - b.budgeted_amount, false⟩ :
        BudgetRow)
    let budgetedCodes := bls.map (·.account_code)
    let extra := (activityCodes fy s).filter fun c => ¬ budgetedCodes.contains c
    let extraRows := extra.map fun c =>
      let a := actualFor c fy s
      (⟨c, 0, a, a, true⟩ : BudgetRow)
    budgetRows ++ extraRows

/-- Modelled from the spec: the exposed ledger operations as request
events, used to quantify over arbitrary operation sequences. -/
inductive LedgerOp where
  | createAccountOp (code name : String) (ty : AccountType)
      (parentCode : Option String)
  | listAccountsOp (ty : Option AccountType) (act : Option Bool)
  | postEntryOp (lines : List JournalLine) (memo source_ref : String)
      (key : Option String)
  | createBatchOp (items : List ContribItem) (occ : Option String)
  | postBatchOp (batchId : Nat) (key : String)
  | claimOp (amount : Int) (accountCode description requestedBy : String)
  | approveOp (expenseId : Nat) (approvedBy : String)
  | rejectOp (expenseId : Nat) (reason : String)
  | payOp (expenseId : Nat) (key : String)
  | getBalanceOp (code : String) (asOf : Nat)
  | getBudgetVsActualOp (fyId : Nat)
  | tickOp

/-- Modelled from the spec: the state reached after one operation — the new
state on success, the unchanged state on a rejected request (no partial
state is ever visible); queries never change state, and `tickOp` advances
the clock. -/
def applyOp (op : LedgerOp) (s : LedgerState) : LedgerState :=
  match op with
  | .createAccountOp code name ty parentCode =>
    match createAccount code name ty parentCode s with
    | .ok s' => s'
    | .error _ => s
  | .listAccountsOp _ _ => s
  | .postEntryOp lines memo source_ref key =>
    match postEntry lines memo source_ref key s with
    | .ok (_, s') => s'
    | .error _ => s
  | .createBatchOp items occ =>
    match createBatch items occ s with
    | .ok (_, s') => s'
    | .error _ => s
  | .postBatchOp batchId key =>
    match postBatch batchId key s with
    | .ok (_, s') => s'
    | .error _ => s
  | .claimOp amount accountCode description requestedBy =>
    match claim amount accountCode description requestedBy s with
    | .ok (_, s') => s'
    | .error _ => s
  | .approveOp expenseId approvedBy =>
    match approve expenseId approvedBy s with
    | .ok s' => s'
    | .error _ => s
  | .rejectOp expenseId reason =>
    match reject expenseId reason s with
    | .ok s' => s'
    | .error _ => s
  | .payOp expenseId key =>
    match pay expenseId key s with
    | .ok (_, s') => s'
    | .error _ => s
  | .getBalanceOp _ _ => s
  | .getBudgetVsActualOp _ => s
  | .tickOp => { s with now := s.now + 1 }

/-- Modelled from the spec: the state reached by a sequence of operations. -/
def runOps (ops : List LedgerOp) (s : LedgerState) : LedgerState :=
  ops.foldl (fun st op => applyOp op st) s

/-- Modelled from the spec: the legal Expense state transitions —
claimed to approved, claimed to rejected, approved to paid, approved to
rejected; paid and rejected are terminal. -/
def allowedTransition : ExpenseState → ExpenseState → Bool
  | .claimed, .approved => true
  | .claimed, .rejected => true
  | .approved, .paid => true
  | .approved, .rejected => true
  | _, _ => false

/-- The successor state of an `Except`-returning operation that yields only
a state, defaulting to `d` on error. -/
def okStateD (r : Except LedgerError LedgerState) (d : LedgerState) :
    LedgerState :=
  match r with
  | .ok s' => s'
  | .error _ => d

/-- The successor state of an `Except`-returning operation that yields an
id and a state, defaulting to `d` on error. -/
def okStateD2 (r : Except LedgerError (Nat × LedgerState)) (d : LedgerState) :
    LedgerState :=
  match r with
  | .ok (_, s') => s'
  | .error _ => d

/-- Concrete scenario, step 0: empty ledger seeded with one fiscal year and
one budget line for account 5300. -/
def sc0 : LedgerState :=
  { initState with
    fiscal_years := [⟨1, 0, 1000000⟩]
    budget_lines := [⟨1, "5300", 10000⟩] }

/-- Concrete scenario, step 1: account 1000 (asset, Checking) created. -/
def sc1 : LedgerState := okStateD (createAccount "1000" "Checking" .asset none sc0) sc0

/-- Concrete scenario, step 2: account 4100 (income, Contributions) created. -/
def sc2 : LedgerState := okStateD (createAccount "4100" "Contributions" .income none sc1) sc1

/-- Concrete scenario, step 3: account 5300 (expense, Literature) created. -/
def sc3 : LedgerState := okStateD (createAccount "5300" "Literature" .expense none sc2) sc2

/-- Concrete scenario, step 4: a balanced manual seed entry posted. -/
def scSeedLines : List JournalLine :=
  [⟨"1000", 100, none⟩, ⟨"4100", -100, none⟩]

/-- Concrete scenario, step 4 result state. -/
def sc4 : LedgerState := okStateD2 (postEntry scSeedLines "seed" "manual" (some "pk") sc3) sc3

/-- Concrete scenario, step 5: a draft contribution batch of 150.00 cash. -/
def sc5 : LedgerState := okStateD2 (createBatch [⟨15000, .cash, "basket"⟩] (some "occ-1") sc4) sc4

/-- Concrete scenario, step 6: the batch posted. -/
def sc6 : LedgerState := okStateD2 (postBatch 1 "bk" sc5) sc5

/-- Concrete scenario, step 7: expense of 40.00 claimed by alice. -/
def sc7 : LedgerState := okStateD2 (claim 4000 "5300" "books" "alice" sc6) sc6

/-- Concrete scenario, step 8: the expense approved by bob. -/
def sc8 : LedgerState := okStateD (approve 1 "bob" sc7) sc7

/-- Concrete scenario, step 9: a second expense claimed by carol. -/
def sc9 : LedgerState := okStateD2 (claim 500 "5300" "extra" "carol" sc8) sc8

/-- Concrete scenario, step 10: the second expense rejected. -/
def sc10 : LedgerState := okStateD (reject 2 "duplicate" sc9) sc9

/-- Concrete scenario, step 11: the first expense paid. -/
def sc11 : LedgerState := okStateD2 (pay 1 "payk" sc10) sc10

/-- Position of a trusted servant as fetched by the TrustedServantsAdmin
view (src/frontend/src/components/Admin/TrustedServantsAdmin.tsx). -/
structure TrustedServant where
  id : Nat
  name : String
  position : String
deriving DecidableEq, Repr

/-- Service position option as fetched by the TrustedServantsAdmin view. -/
structure ServicePosition where
  value : String
  label : String
  description : String
deriving DecidableEq, Repr

/-- The `isFilled` computation of TrustedServantsAdmin: some fetched
trusted servant has a `position` field equal to the position's `value`. -/
def isFilled (servants : List TrustedServant) (p : ServicePosition) : Bool :=
  servants.any fun s => s.position == p.value

/-- The badge text rendered for a service position by TrustedServantsAdmin. -/
def positionBadge (servants : List TrustedServant) (p : ServicePosition) :
    String :=
  if isFilled servants p then "Filled" else "Open"

/-- Milliseconds per day, the divisor used by `calculateSobrietyDays`. -/
def msPerDay : Nat := 1000 * 60 * 60 * 24

/-- The `calculateSobrietyDays` function of the members page
(src/unnamed/part_004): the ceiling of the absolute millisecond difference
between now and the sobriety date, divided by one day. Timestamps are the
integral millisecond values of the parsed JavaScript dates. -/
def calculateSobrietyDays (nowMs sobrietyMs : Int) : Nat :=
  ((nowMs - sobrietyMs).natAbs + (msPerDay - 1)) / msPerDay

/-- Notification preference flags of the profile form
(src/frontend/src/components/Member/ProfileForm.tsx). -/
structure NotificationPreferences where
  email_notifications : Bool
  meeting_reminders : Bool
  service_updates : Bool
  marketing : Bool
deriving DecidableEq, Repr

/-- The profile form state of ProfileForm. -/
structure ProfileFormState where
  id : String
  preferred_name : Option String
  sobriety_date : Option String
  timezone : String
  language : String
  show_sobriety_date : Bool
  show_in_directory : Bool
  allow_contact : Bool
  role : String
  is_active : Bool
  created_at : String
  notification_preferences : NotificationPreferences
deriving DecidableEq, Repr

/-- The initial `useState` value of ProfileForm's `formData`. -/
def initialFormData : ProfileFormState :=
  ⟨"", none, none, "America/Chicago", "en", false, true, false, "guest",
    true, "", ⟨true, true, false, false⟩⟩

/-- The form state ProfileForm renders with initially: the profile prop
when present (applied by the effect), the `useState` default otherwise. -/
def profileFormInitialState : Option ProfileFormState → ProfileFormState
  | some p => p
  | none => initialFormData

/-- Claim C1: the program exposes the ledger operations postEntry,
createBatch, postBatch, claim, approve, reject, pay, getBalance,
getBudgetVsActual, createAccount and listAccounts as callable operations;
the concrete scenario below calls every named operation and checks the
outcome the specification describes for it. -/
theorem c1_exposed_operations :
    createAccount "1000" "Checking" .asset none sc0 = .ok sc1 ∧
    createAccount "4100" "Contributions" .income none sc1 = .ok sc2 ∧
    createAccount "5300" "Literature" .expense none sc2 = .ok sc3 ∧
    (listAccounts none none sc3).map (·.code) = ["1000", "4100", "5300"] ∧
    postEntry scSeedLines "seed" "manual" (some "pk") sc3 = .ok (1, sc4) ∧
    createBatch [⟨15000, .cash, "basket"⟩] (some "occ-1") sc4 = .ok (1, sc5) ∧
    postBatch 1 "bk" sc5 = .ok (2, sc6) ∧
    getBalance "1000" 100 sc6 = 15100 ∧
    getBalance "4100" 100 sc6 = -15100 ∧
    claim 4000 "5300" "books" "alice" sc6 = .ok (1, sc7) ∧
    approve 1 "bob" sc7 = .ok sc8 ∧
    claim 500 "5300" "extra" "carol" sc8 = .ok (2, sc9) ∧
    reject 2 "duplicate" sc9 = .ok sc10 ∧
    pay 1 "payk" sc10 = .ok (3, sc11) ∧
    getBalance "1000" 100 sc11 = 11100 ∧
    getBalance "5300" 100 sc11 = 4000 ∧
    getBudgetVsActual 1 sc11 =
      [⟨"5300", 10000, 4000, -6000, false⟩,
       ⟨"1000", 0, 11100, 11100, true⟩,
       ⟨"4100", 0, -15100, -15100, true⟩] := by
  refine ⟨rfl, rfl, rfl, by decide, rfl, rfl, rfl, rfl, rfl, rfl, rfl, rfl,
    rfl, rfl, rfl, rfl, rfl⟩

/-- Claim C8: in the TrustedServantsAdmin view, a fetched service position
is badged Filled exactly when some fetched trusted servant has a position
field equal to the position's value, and badged Open otherwise. -/
theorem c8_position_badge (servants : List TrustedServant)
    (p : ServicePosition) :
    (isFilled servants p = true ↔ ∃ s ∈ servants, s.position = p.value) ∧
    (positionBadge servants p = "Filled" ↔ isFilled servants p = true) ∧
    (positionBadge servants p = "Open" ↔ isFilled servants p = false) := by
  refine ⟨?_, ?_, ?_⟩
  · simp [isFilled, List.any_eq_true]
  · cases h : isFilled servants p <;> simp [positionBadge, h]
  · cases h : isFilled servants p <;> simp [positionBadge, h]

/-- Claim C10: rendered with no profile prop, ProfileForm's initial form
state uses privacy-restrictive defaults — show_sobriety_date, allow_contact
and the marketing and service_updates preferences are false while
show_in_directory is true. -/
theorem c10_profile_form_defaults :
    (profileFormInitialState none).show_sobriety_date = false ∧
    (profileFormInitialState none).allow_contact = false ∧
    (profileFormInitialState none).notification_preferences.marketing = false ∧
    (profileFormInitialState none).notification_preferences.service_updates = false ∧
    (profileFormInitialState none).show_in_directory = true :=
  ⟨rfl, rfl, rfl, rfl, rfl⟩

/-- Claim C9: for every parseable date, calculateSobrietyDays is the
ceiling of the absolute millisecond difference from now divided by one
day — characterized below without division — hence non-negative, and a
sobriety date in the future yields the same positive day count as the
symmetric past date rather than a negative count. -/
theorem c9_sobriety_day_count (nowMs sobrietyMs d : Int) (k : Nat) :
    (calculateSobrietyDays nowMs sobrietyMs ≤ k ↔
      (nowMs - sobrietyMs).natAbs ≤ k * msPerDay) ∧
    calculateSobrietyDays nowMs (nowMs + d) =
      calculateSobrietyDays nowMs (nowMs - d) ∧
    (d ≠ 0 → 0 < calculateSobrietyDays nowMs (nowMs + d)) := by
  refine ⟨?_, ?_, ?_⟩
  · unfold calculateSobrietyDays msPerDay
    rw [Nat.div_le_iff_le_mul_add_pred (by norm_num)]
    omega
  · have h1 : nowMs - (nowMs + d) = -d := by ring
    have h2 : nowMs - (nowMs - d) = d := by ring
    unfold calculateSobrietyDays
    rw [h1, h2, Int.natAbs_neg]
  · intro hd
    have h1 : nowMs - (nowMs + d) = -d := by ring
    unfold calculateSobrietyDays msPerDay
    rw [h1, Int.natAbs_neg]
    have hd1 : 1 ≤ d.natAbs := by
      rcases Int.natAbs_eq d with h | h <;> omega
    rw [Nat.lt_iff_add_one_le, Nat.le_div_iff_mul_le (by norm_num)]
    omega

theorem cacheLookup_cacheAdd (cache : List (String × Int)) (c code : String)
    (amt : Int) :
    cacheLookup (cacheAdd cache c amt) code =
      cacheLookup cache code + (if c == code then amt else 0) := by
  induction cache with
  | nil =>
    by_cases h : c == code <;> simp [cacheAdd, cacheLookup, h]
  | cons p rest ih =>
    obtain ⟨pc, pv⟩ := p
    by_cases h1 : (pc == c) = true
    · have h1' : pc = c := by simpa using h1
      subst h1'
      by_cases h2 : (pc == code) = true <;>
        simp [cacheAdd, cacheLookup, h2] <;> ring
    · simp only [Bool.not_eq_true] at h1
      by_cases h2 : (pc == code) = true
      · have h2' : pc = code := by simpa using h2
        subst h2'
        have h1' : pc ≠ c := by
          intro he
          rw [he] at h1
          simp at h1
        have hc : (c == pc) = false := by
          simp only [beq_eq_false_iff_ne, ne_eq]
          exact fun he => h1' he.symm
        simp [cacheAdd, cacheLookup, h1, h2, hc]
      · simp only [Bool.not_eq_true] at h2
        simp [cacheAdd, cacheLookup, h1, h2, ih]

theorem cacheLookup_cacheApply (lines : List JournalLine)
    (cache : List (String × Int)) (code : String) :
    cacheLookup (cacheApply cache lines) code =
      cacheLookup cache code + lineSumFor code lines := by
  induction lines generalizing cache with
  | nil => simp [cacheApply, lineSumFor]
  | cons l ls ih =>
    have hstep : cacheApply cache (l :: ls) =
        cacheApply (cacheAdd cache l.account_code l.amount) ls := rfl
    rw [hstep, ih, cacheLookup_cacheAdd]
    by_cases h : (l.account_code == code) = true <;>
      simp [lineSumFor, List.filter_cons, h] <;> ring

theorem replayBalance_append (code : String) (l : List JournalEntry)
    (e : JournalEntry) :
    replayBalance code (l ++ [e]) = replayBalance code l + lineSumFor code e.lines := by
  simp [replayBalance]

theorem findBy_key {α : Type} {key : α → Nat} {i : Nat} {l : List α} {x : α}
    (h : findBy key i l = some x) : key x = i := by
  have := List.find?_some h
  simpa using this

theorem findBy_mem {α : Type} {key : α → Nat} {i : Nat} {l : List α} {x : α}
    (h : findBy key i l = some x) : x ∈ l :=
  List.mem_of_find?_eq_some h

theorem findBy_append_some {α : Type} {key : α → Nat} {i : Nat} {l : List α}
    {x : α} (l₂ : List α) (h : findBy key i l = some x) :
    findBy key i (l ++ l₂) = some x := by
  unfold findBy at h ⊢
  rw [List.find?_append, h]
  rfl

theorem findBy_updBy {α : Type} (key : α → Nat) (i j : Nat) (f : α → α)
    (l : List α) (hf : ∀ x, key (f x) = key x) :
    findBy key j (updBy key i f l) =
      (findBy key j l).map fun x => if key x == i then f x else x := by
  induction l with
  | nil => rfl
  | cons a as ih =>
    unfold findBy updBy at ih ⊢
    rw [List.map_cons, List.find?_cons, List.find?_cons]
    by_cases hik : (key a == i) = true
    · rw [if_pos hik]
      have hkey : (key (f a) == j) = (key a == j) := by rw [hf a]
      rw [hkey]
      cases hj : (key a == j)
      · simpa using ih
      · have hik' : key a = i := by simpa using hik
        simp [hik']
    · rw [if_neg hik]
      cases hj : (key a == j)
      · simpa using ih
      · have hik' : ¬ key a = i := by simpa using hik
        simp [hik']

theorem postEntry_ok_cases {lines : List JournalLine}
    {memo source_ref : String} {key : Option String} {s : LedgerState}
    {id : Nat} {s' : LedgerState}
    (h : postEntry lines memo source_ref key s = .ok (id, s')) :
    ¬ lines.length < 2 ∧
    (∀ l ∈ lines, accountActive s.accounts l.account_code = true) ∧
    linesTotal lines = 0 ∧
    ((s' = s ∧ ∃ k, key = some k ∧
        lookupIdem k s.idempotency_records = some id) ∨
      ((id, s') = commitEntry lines memo source_ref key s ∧
        ∀ k, key = some k → lookupIdem k s.idempotency_records = none)) := by
  unfold postEntry at h
  split at h
  · exact absurd h (by simp)
  next hlen =>
    split at h
    · exact absurd h (by simp)
    next hact =>
      split at h
      · exact absurd h (by simp)
      next hbal =>
        refine ⟨hlen, not_not.mp hact, not_not.mp hbal, ?_⟩
        split at h
        next k =>
          split at h
          next prior hl =>
            cases h
            exact Or.inl ⟨rfl, k, rfl, hl⟩
          next hl =>
            cases h
            refine Or.inr ⟨rfl, ?_⟩
            intro k' hk'
            injection hk' with hkk
            rw [← hkk]
            exact hl
        next =>
          cases h
          refine Or.inr ⟨rfl, ?_⟩
          intro k' hk'
          cases hk'

theorem postEntry_ok_fields {lines : List JournalLine}
    {memo source_ref : String} {key : Option String} {s : LedgerState}
    {id : Nat} {s' : LedgerState}
    (h : postEntry lines memo source_ref key s = .ok (id, s')) :
    s'.accounts = s.accounts ∧ s'.expenses = s.expenses ∧
    s'.batches = s.batches ∧ s'.budget_lines = s.budget_lines ∧
    s'.fiscal_years = s.fiscal_years ∧ s'.now = s.now := by
  rcases (postEntry_ok_cases h).2.2.2 with ⟨rfl, -⟩ | ⟨hc, -⟩
  · exact ⟨rfl, rfl, rfl, rfl, rfl, rfl⟩
  · have hs : s' = (commitEntry lines memo source_ref key s).2 := by
      have := congrArg Prod.snd hc
      simpa using this
    subst hs
    refine ⟨?_, ?_, ?_, ?_, ?_, ?_⟩ <;> simp [commitEntry]

theorem postEntry_ok_entries_cache {lines : List JournalLine}
    {memo source_ref : String} {key : Option String} {s : LedgerState}
    {id : Nat} {s' : LedgerState}
    (h : postEntry lines memo source_ref key s = .ok (id, s')) :
    (s'.entries = s.entries ∧ s'.balance_cache = s.balance_cache) ∨
    ∃ e, linesTotal e.lines = 0 ∧ s'.entries = s.entries ++ [e] ∧
      s'.balance_cache = cacheApply s.balance_cache e.lines := by
  obtain ⟨-, -, hbal, hca⟩ := postEntry_ok_cases h
  rcases hca with ⟨rfl, -⟩ | ⟨hc, -⟩
  · exact Or.inl ⟨rfl, rfl⟩
  · have hs : s' = (commitEntry lines memo source_ref key s).2 := by
      have := congrArg Prod.snd hc
      simpa using this
    subst hs
    refine Or.inr ⟨⟨s.next_entry_id, s.now, memo, source_ref, lines, key⟩,
      hbal, ?_, ?_⟩ <;> simp [commitEntry]

theorem postEntry_ok_key {lines : List JournalLine}
    {memo source_ref k : String} {s : LedgerState} {id : Nat}
    {s' : LedgerState}
    (h : postEntry lines memo source_ref (some k) s = .ok (id, s')) :
    lookupIdem k s'.idempotency_records = some id := by
  rcases (postEntry_ok_cases h).2.2.2 with ⟨heq, k', hk', hl⟩ | ⟨hc, hnone⟩
  · injection hk' with hkk
    subst hkk
    rw [heq]
    exact hl
  · have hid : id = s.next_entry_id := by
      have := congrArg Prod.fst hc
      simpa [commitEntry] using this
    have hs : s' = (commitEntry lines memo source_ref (some k) s).2 := by
      have := congrArg Prod.snd hc
      simpa using this
    have hn := hnone k rfl
    have hfind : s.idempotency_records.find? (fun r => r.key == k) = none := by
      unfold lookupIdem at hn
      exact Option.map_eq_none'.mp hn
    subst hs
    simp [commitEntry, lookupIdem, List.find?_append, hfind, hid]

theorem createAccount_ok {code name : String} {ty : AccountType}
    {pc : Option String} {s s' : LedgerState}
    (h : createAccount code name ty pc s = .ok s') :
    s' = { s with accounts := s.accounts ++ [⟨code, name, ty, true, pc⟩] } := by
  unfold createAccount at h
  split at h
  · exact absurd h (by simp)
  · cases h
    rfl

theorem claim_ok {amount : Int} {accountCode description requestedBy : String}
    {s : LedgerState} {id : Nat} {s' : LedgerState}
    (h : claim amount accountCode description requestedBy s = .ok (id, s')) :
    id = s.next_expense_id ∧
    s' = { s with
      expenses := s.expenses ++
        [⟨s.next_expense_id, amount, accountCode, description, requestedBy,
          .claimed, none, none⟩]
      next_expense_id := s.next_expense_id + 1 } := by
  unfold claim at h
  split at h
  · exact absurd h (by simp)
  · cases h
    exact ⟨rfl, rfl⟩

theorem approve_ok {i : Nat} {who : String} {s s' : LedgerState}
    (h : approve i who s = .ok s') :
    ∃ e, findExpense i s = some e ∧ (e.requested_by == who) = false ∧
      e.state = .claimed ∧
      s' = { s with
        expenses := updBy (·.id) i
          (fun ex =>
            { ex with state := ExpenseState.approved, approved_by := some who })
          s.expenses } := by
  unfold approve at h
  split at h
  · exact absurd h (by simp)
  next e hfind =>
    split at h
    · exact absurd h (by simp)
    next hself =>
      split at h
      next hstate =>
        cases h
        exact ⟨e, hfind, by simpa using hself, hstate, rfl⟩
      next =>
        exact absurd h (by simp)

theorem reject_ok {i : Nat} {r : String} {s s' : LedgerState}
    (h : reject i r s = .ok s') :
    ∃ e, findExpense i s = some e ∧
      (e.state = .claimed ∨ e.state = .approved) ∧
      s' = { s with
        expenses := updBy (·.id) i
          (fun ex => { ex with state := ExpenseState.rejected }) s.expenses } := by
  unfold reject at h
  split at h
  · exact absurd h (by simp)
  next e hfind =>
    split at h
    next hstate =>
      cases h
      exact ⟨e, hfind, Or.inl hstate, rfl⟩
    next hstate =>
      cases h
      exact ⟨e, hfind, Or.inr hstate, rfl⟩
    next =>
      exact absurd h (by simp)

theorem pay_ok {i : Nat} {k : String} {s : LedgerState} {id : Nat}
    {s' : LedgerState} (h : pay i k s = .ok (id, s')) :
    ∃ e, findExpense i s = some e ∧
      ((e.state = .paid ∧ s' = s ∧
          lookupIdem k s.idempotency_records = some id ∧
          e.paid_journal_entry_id = some id) ∨
        (e.state = .approved ∧ ∃ s2,
          postEntry
            [⟨e.account_code, e.amount, none⟩,
             ⟨disbursingAccountCode, -e.amount, none⟩]
            ("expense " ++ e.description) ("expense:" ++ toString e.id)
            (some k) s = .ok (id, s2) ∧
          s' = { s2 with
            expenses := updBy (·.id) i
              (fun ex =>
                { ex with state := ExpenseState.paid, paid_journal_entry_id := some id })
              s2.expenses })) := by
  unfold pay at h
  split at h
  · exact absurd h (by simp)
  next e hfind =>
    split at h
    next hstate =>
      -- paid branch
      split at h
      next prior pid hl hp =>
        split at h
        next heq =>
          cases h
          subst heq
          exact ⟨e, hfind, Or.inl ⟨hstate, rfl, hl, hp⟩⟩
        next =>
          exact absurd h (by simp)
      next =>
        exact absurd h (by simp)
    next hstate =>
      -- approved branch
      split at h
      · exact absurd h (by simp)
      next eid s2 hpe =>
        cases h
        exact ⟨e, hfind, Or.inr ⟨hstate, s2, hpe, rfl⟩⟩
    next =>
      exact absurd h (by simp)

theorem postBatch_ok {b : Nat} {k : String} {s : LedgerState} {id : Nat}
    {s' : LedgerState} (h : postBatch b k s = .ok (id, s')) :
    ∃ bb s2, findBatch b s = some bb ∧
      bb.posted_journal_entry_id = none ∧
      bb.entries.isEmpty = false ∧
      postEntry (batchJournalLines bb) "contribution batch"
        ("batch:" ++ toString bb.id) (some k) s = .ok (id, s2) ∧
      s' = { s2 with
        batches := updBy (·.id) b
          (fun x => { x with posted_journal_entry_id := some id })
          s2.batches } := by
  unfold postBatch at h
  split at h
  · exact absurd h (by simp)
  next bb hfind =>
    split at h
    · exact absurd h (by simp)
    next hposted =>
      split at h
      · exact absurd h (by simp)
      next hempty =>
        split at h
        · exact absurd h (by simp)
        next eid s2 hpe =>
          cases h
          refine ⟨bb, s2, hfind, ?_, ?_, hpe, rfl⟩
          · cases hpj : bb.posted_journal_entry_id with
            | none => rfl
            | some v => exact absurd (by simp [hpj]) hposted
          · cases hem : bb.entries.isEmpty with
            | false => rfl
            | true => exact absurd (by simp [hem]) hempty

theorem createBatch_ok {items : List ContribItem} {occ : Option String}
    {s : LedgerState} {id : Nat} {s' : LedgerState}
    (h : createBatch items occ s = .ok (id, s')) :
    s' = { s with
      batches := s.batches ++ [⟨s.next_batch_id, occ, items, none⟩]
      next_batch_id := s.next_batch_id + 1 } := by
  unfold createBatch at h
  cases h
  rfl

theorem applyOp_entries (op : LedgerOp) (s : LedgerState) :
    ((applyOp op s).entries = s.entries ∧
      (applyOp op s).balance_cache = s.balance_cache) ∨
    ∃ e, linesTotal e.lines = 0 ∧ (applyOp op s).entries = s.entries ++ [e] ∧
      (applyOp op s).balance_cache = cacheApply s.balance_cache e.lines := by
  cases op with
  | createAccountOp code name ty pc =>
    cases h : createAccount code name ty pc s with
    | error e =>
      have happ : applyOp (.createAccountOp code name ty pc) s = s := by
        simp only [applyOp]; rw [h]
      rw [happ]
      exact Or.inl ⟨rfl, rfl⟩
    | ok s' =>
      have happ : applyOp (.createAccountOp code name ty pc) s = s' := by
        simp only [applyOp]; rw [h]
      rw [happ, createAccount_ok h]
      exact Or.inl ⟨rfl, rfl⟩
  | listAccountsOp ty act => exact Or.inl ⟨rfl, rfl⟩
  | postEntryOp lines memo source_ref key =>
    cases h : postEntry lines memo source_ref key s with
    | error e =>
      have happ : applyOp (.postEntryOp lines memo source_ref key) s = s := by
        simp only [applyOp]; rw [h]
      rw [happ]
      exact Or.inl ⟨rfl, rfl⟩
    | ok p =>
      obtain ⟨id, s'⟩ := p
      have happ : applyOp (.postEntryOp lines memo source_ref key) s = s' := by
        simp only [applyOp]; rw [h]
      rw [happ]
      exact postEntry_ok_entries_cache h
  | createBatchOp items occ =>
    cases h : createBatch items occ s with
    | error e =>
      have happ : applyOp (.createBatchOp items occ) s = s := by
        simp only [applyOp]; rw [h]
      rw [happ]
      exact Or.inl ⟨rfl, rfl⟩
    | ok p =>
      obtain ⟨id, s'⟩ := p
      have happ : applyOp (.createBatchOp items occ) s = s' := by
        simp only [applyOp]; rw [h]
      rw [happ, createBatch_ok h]
      exact Or.inl ⟨rfl, rfl⟩
  | postBatchOp batchId key =>
    cases h : postBatch batchId key s with
    | error e =>
      have happ : applyOp (.postBatchOp batchId key) s = s := by
        simp only [applyOp]; rw [h]
      rw [happ]
      exact Or.inl ⟨rfl, rfl⟩
    | ok p =>
      obtain ⟨id, s'⟩ := p
      have happ : applyOp (.postBatchOp batchId key) s = s' := by
        simp only [applyOp]; rw [h]
      rw [happ]
      obtain ⟨bb, s2, -, -, -, hpe, hs'⟩ := postBatch_ok h
      subst hs'
      rcases postEntry_ok_entries_cache hpe with ⟨h1, h2⟩ | ⟨e, hb, h1, h2⟩
      · exact Or.inl ⟨h1, h2⟩
      · exact Or.inr ⟨e, hb, h1, h2⟩
  | claimOp amount accountCode description requestedBy =>
    cases h : claim amount accountCode description requestedBy s with
    | error e =>
      have happ :
          applyOp (.claimOp amount accountCode description requestedBy) s = s := by
        simp only [applyOp]; rw [h]
      rw [happ]
      exact Or.inl ⟨rfl, rfl⟩
    | ok p =>
      obtain ⟨id, s'⟩ := p
      have happ :
          applyOp (.claimOp amount accountCode description requestedBy) s = s' := by
        simp only [applyOp]; rw [h]
      rw [happ, (claim_ok h).2]
      exact Or.inl ⟨rfl, rfl⟩
  | approveOp expenseId approvedBy =>
    cases h : approve expenseId approvedBy s with
    | error e =>
      have happ : applyOp (.approveOp expenseId approvedBy) s = s := by
        simp only [applyOp]; rw [h]
      rw [happ]
      exact Or.inl ⟨rfl, rfl⟩
    | ok s' =>
      have happ : applyOp (.approveOp expenseId approvedBy) s = s' := by
        simp only [applyOp]; rw [h]
      obtain ⟨e, -, -, -, hs'⟩ := approve_ok h
      rw [happ, hs']
      exact Or.inl ⟨rfl, rfl⟩
  | rejectOp expenseId reason =>
    cases h : reject expenseId reason s with
    | error e =>
      have happ : applyOp (.rejectOp expenseId reason) s = s := by
        simp only [applyOp]; rw [h]
      rw [happ]
      exact Or.inl ⟨rfl, rfl⟩
    | ok s' =>
      have happ : applyOp (.rejectOp expenseId reason) s = s' := by
        simp only [applyOp]; rw [h]
      obtain ⟨e, -, -, hs'⟩ := reject_ok h
      rw [happ, hs']
      exact Or.inl ⟨rfl, rfl⟩
  | payOp expenseId key =>
    cases h : pay expenseId key s with
    | error e =>
      have happ : applyOp (.payOp expenseId key) s = s := by
        simp only [applyOp]; rw [h]
      rw [happ]
      exact Or.inl ⟨rfl, rfl⟩
    | ok p =>
      obtain ⟨id, s'⟩ := p
      have happ : applyOp (.payOp expenseId key) s = s' := by
        simp only [applyOp]; rw [h]
      rw [happ]
      obtain ⟨e, -, hcase⟩ := pay_ok h
      rcases hcase with ⟨-, rfl, -, -⟩ | ⟨-, s2, hpe, hs'⟩
      · exact Or.inl ⟨rfl, rfl⟩
      · subst hs'
        rcases postEntry_ok_entries_cache hpe with ⟨h1, h2⟩ | ⟨e0, hb, h1, h2⟩
        · exact Or.inl ⟨h1, h2⟩
        · exact Or.inr ⟨e0, hb, h1, h2⟩
  | getBalanceOp code asOf => exact Or.inl ⟨rfl, rfl⟩
  | getBudgetVsActualOp fyId => exact Or.inl ⟨rfl, rfl⟩
  | tickOp => exact Or.inl ⟨rfl, rfl⟩

theorem runOps_preserve (P : LedgerState → Prop)
    (hstep : ∀ op s, P s → P (applyOp op s)) :
    ∀ (ops : List LedgerOp) (s : LedgerState), P s → P (runOps ops s) := by
  intro ops
  induction ops with
  | nil => intro s hs; exact hs
  | cons op rest ih =>
    intro s hs
    exact ih (applyOp op s) (hstep op s hs)

/-- Claim C7: the journal is append-only — every exposed operation extends
the committed entries list on the right, so each committed JournalEntry and
its lines stay present and unchanged; corrections only add new entries. -/
theorem c7_journal_append_only (op : LedgerOp) (s : LedgerState) :
    ∃ tail, (applyOp op s).entries = s.entries ++ tail := by
  rcases applyOp_entries op s with ⟨h1, -⟩ | ⟨e, -, h1, -⟩
  · exact ⟨[], by simp [h1]⟩
  · exact ⟨[e], h1⟩

/-- Claim C6: getBalance sums exactly the committed journal line amounts for
the account with posted_at up to asOf, and after any sequence of operations
from the initial state the cached per-account balance equals the value
computed by full replay of the journal. -/
theorem c6_balance_projection (ops : List LedgerOp) (code : String)
    (asOf : Nat) :
    getBalance code asOf (runOps ops initState) =
      (((runOps ops initState).entries.filter fun e =>
          decide (e.posted_at ≤ asOf)).map
        fun e => lineSumFor code e.lines).sum ∧
    cacheLookup (runOps ops initState).balance_cache code =
      replayBalance code (runOps ops initState).entries := by
  constructor
  · rfl
  · refine runOps_preserve
      (fun st => ∀ c, cacheLookup st.balance_cache c = replayBalance c st.entries)
      ?_ ops initState ?_ code
    · intro op st hst c
      rcases applyOp_entries op st with ⟨h1, h2⟩ | ⟨e, -, h1, h2⟩
      · rw [h1, h2]
        exact hst c
      · rw [h1, h2, replayBalance_append, cacheLookup_cacheApply, hst c]
    · intro c
      simp [initState, cacheLookup, replayBalance]

/-- Claim C2 (amended): every journal entry committed by postEntry has line
amounts summing to exactly zero (in every state reachable from the initial
state); and every input that passes the earlier validation steps — at least
two lines, all referencing active accounts — whose line amounts do not sum
to zero makes postEntry fail with UnbalancedEntry, committing nothing. -/
theorem c2_amended_balance :
    (∀ (ops : List LedgerOp), ∀ e ∈ (runOps ops initState).entries,
      linesTotal e.lines = 0) ∧
    (∀ (lines : List JournalLine) (memo source_ref : String)
      (key : Option String) (s : LedgerState),
      2 ≤ lines.length →
      (∀ l ∈ lines, accountActive s.accounts l.account_code = true) →
      linesTotal lines ≠ 0 →
      postEntry lines memo source_ref key s = .error .UnbalancedEntry) := by
  constructor
  · intro ops
    refine runOps_preserve (fun st => ∀ e ∈ st.entries, linesTotal e.lines = 0)
      ?_ ops initState ?_
    · intro op st hst e he
      rcases applyOp_entries op st with ⟨h1, -⟩ | ⟨e0, hb, h1, -⟩
      · rw [h1] at he
        exact hst e he
      · rw [h1] at he
        rcases List.mem_append.mp he with hmem | hmem
        · exact hst e hmem
        · have heq : e = e0 := by simpa using hmem
          rw [heq]
          exact hb
    · intro e he
      simp [initState] at he
  · intro lines memo source_ref key s hlen hact hbal
    unfold postEntry
    rw [if_neg (by omega), if_neg (not_not_intro hact), if_pos hbal]

/-- Claim C2 as stated is false on the model: a one-line input whose amounts
sum to 5 ≠ 0 is rejected with MalformedEntry — the line-count check of the
validation sequence precedes the balance check — not with UnbalancedEntry. -/
theorem c2_claim_counterexample :
    linesTotal [⟨"1000", 5, none⟩] = 5 ∧
    postEntry [⟨"1000", 5, none⟩] "m" "r" none initState =
      .error .MalformedEntry ∧
    LedgerError.MalformedEntry ≠ LedgerError.UnbalancedEntry := by
  exact ⟨rfl, rfl, by decide⟩

/-- Witness for the amended claim C2: the committed seed entry of the
concrete scenario is balanced, and a concrete two-line unbalanced input
over active accounts fails with UnbalancedEntry. -/
theorem c2_amended_balance_witness :
    ((⟨1, 0, "seed", "manual", scSeedLines, some "pk"⟩ : JournalEntry) ∈
        (runOps
          [.createAccountOp "1000" "Checking" .asset none,
           .createAccountOp "4100" "Contributions" .income none,
           .postEntryOp scSeedLines "seed" "manual" (some "pk")]
          initState).entries ∧
      linesTotal scSeedLines = 0) ∧
    (2 ≤ ([⟨"1000", 7, none⟩, ⟨"4100", -6, none⟩] : List JournalLine).length ∧
      (∀ l ∈ ([⟨"1000", 7, none⟩, ⟨"4100", -6, none⟩] : List JournalLine),
        accountActive sc3.accounts l.account_code = true) ∧
      linesTotal [⟨"1000", 7, none⟩, ⟨"4100", -6, none⟩] ≠ 0 ∧
      postEntry [⟨"1000", 7, none⟩, ⟨"4100", -6, none⟩] "m" "r" none sc3 =
        .error .UnbalancedEntry) := by
  constructor
  · constructor
    · decide
    · exact c2_amended_balance.1
        [.createAccountOp "1000" "Checking" .asset none,
         .createAccountOp "4100" "Contributions" .income none,
         .postEntryOp scSeedLines "seed" "manual" (some "pk")]
        ⟨1, 0, "seed", "manual", scSeedLines, some "pk"⟩ (by decide)
  · refine ⟨by decide, by decide, by decide,
      c2_amended_balance.2 _ "m" "r" none sc3 (by decide) (by decide) (by decide)⟩

theorem findExpense_congr {s' s : LedgerState} (j : Nat)
    (hexp : s'.expenses = s.expenses) :
    findExpense j s' = findExpense j s := by
  unfold findExpense findBy
  rw [hexp]

theorem eq_of_findExpense_same {s : LedgerState} {j : Nat} {e e' : Expense}
    (h1 : findExpense j s = some e) (h2 : findExpense j s = some e') :
    e' = e := by
  rw [h1] at h2
  injection h2 with h
  exact h.symm

theorem findBy_upd_result {i j : Nat} {f : Expense → Expense}
    {l : List Expense} {e e' : Expense}
    (h1 : findBy (·.id) j l = some e)
    (h2 : findBy (·.id) j (updBy (·.id) i f l) = some e')
    (hf : ∀ x, (f x).id = x.id) :
    (e' = e ∧ (e.id == i) = false) ∨ (e' = f e ∧ e.id = i ∧ i = j) := by
  rw [findBy_updBy _ i j f l hf, h1, Option.map_some'] at h2
  injection h2 with h2
  by_cases hij : (e.id == i) = true
  · right
    have hii : e.id = i := by simpa using hij
    have hji : (·.id : Expense → Nat) e = j := findBy_key h1
    simp only at hji
    refine ⟨?_, hii, by omega⟩
    rw [← h2]
    simp [hij]
  · left
    constructor
    · rw [← h2]
      simp [hij]
    · simpa using hij

theorem applyOp_expense_step (op : LedgerOp) (s : LedgerState) (j : Nat)
    (e e' : Expense) (h1 : findExpense j s = some e)
    (h2 : findExpense j (applyOp op s) = some e') :
    e' = e ∨ allowedTransition e.state e'.state = true := by
  cases op with
  | createAccountOp code name ty pc =>
    cases h : createAccount code name ty pc s with
    | error err =>
      have happ : applyOp (.createAccountOp code name ty pc) s = s := by
        simp only [applyOp]; rw [h]
      rw [happ] at h2
      exact Or.inl (eq_of_findExpense_same h1 h2)
    | ok s' =>
      have happ : applyOp (.createAccountOp code name ty pc) s = s' := by
        simp only [applyOp]; rw [h]
      rw [happ] at h2
      rw [findExpense_congr j (by rw [createAccount_ok h])] at h2
      exact Or.inl (eq_of_findExpense_same h1 h2)
  | listAccountsOp ty act => exact Or.inl (eq_of_findExpense_same h1 h2)
  | postEntryOp lines memo source_ref key =>
    cases h : postEntry lines memo source_ref key s with
    | error err =>
      have happ : applyOp (.postEntryOp lines memo source_ref key) s = s := by
        simp only [applyOp]; rw [h]
      rw [happ] at h2
      exact Or.inl (eq_of_findExpense_same h1 h2)
    | ok p =>
      obtain ⟨id, s'⟩ := p
      have happ : applyOp (.postEntryOp lines memo source_ref key) s = s' := by
        simp only [applyOp]; rw [h]
      rw [happ] at h2
      rw [findExpense_congr j (postEntry_ok_fields h).2.1] at h2
      exact Or.inl (eq_of_findExpense_same h1 h2)
  | createBatchOp items occ =>
    cases h : createBatch items occ s with
    | error err =>
      have happ : applyOp (.createBatchOp items occ) s = s := by
        simp only [applyOp]; rw [h]
      rw [happ] at h2
      exact Or.inl (eq_of_findExpense_same h1 h2)
    | ok p =>
      obtain ⟨id, s'⟩ := p
      have happ : applyOp (.createBatchOp items occ) s = s' := by
        simp only [applyOp]; rw [h]
      rw [happ] at h2
      rw [findExpense_congr j (by rw [createBatch_ok h])] at h2
      exact Or.inl (eq_of_findExpense_same h1 h2)
  | postBatchOp batchId key =>
    cases h : postBatch batchId key s with
    | error err =>
      have happ : applyOp (.postBatchOp batchId key) s = s := by
        simp only [applyOp]; rw [h]
      rw [happ] at h2
      exact Or.inl (eq_of_findExpense_same h1 h2)
    | ok p =>
      obtain ⟨id, s'⟩ := p
      have happ : applyOp (.postBatchOp batchId key) s = s' := by
        simp only [applyOp]; rw [h]
      rw [happ] at h2
      obtain ⟨bb, s2, -, -, -, hpe, hs'⟩ := postBatch_ok h
      have hexp : s'.expenses = s.expenses := by
        rw [hs']
        exact (postEntry_ok_fields hpe).2.1
      rw [findExpense_congr j hexp] at h2
      exact Or.inl (eq_of_findExpense_same h1 h2)
  | claimOp amount accountCode description requestedBy =>
    cases h : claim amount accountCode description requestedBy s with
    | error err =>
      have happ :
          applyOp (.claimOp amount accountCode description requestedBy) s = s := by
        simp only [applyOp]; rw [h]
      rw [happ] at h2
      exact Or.inl (eq_of_findExpense_same h1 h2)
    | ok p =>
      obtain ⟨id, s'⟩ := p
      have happ :
          applyOp (.claimOp amount accountCode description requestedBy) s = s' := by
        simp only [applyOp]; rw [h]
      rw [happ] at h2
      obtain ⟨-, hs'⟩ := claim_ok h
      subst hs'
      have h2' : findBy (·.id) j
          (s.expenses ++
            [⟨s.next_expense_id, amount, accountCode, description, requestedBy,
              .claimed, none, none⟩]) = some e' := h2
      rw [findBy_append_some _ h1] at h2'
      injection h2' with h2'
      exact Or.inl h2'.symm
  | approveOp expenseId approvedBy =>
    cases h : approve expenseId approvedBy s with
    | error err =>
      have happ : applyOp (.approveOp expenseId approvedBy) s = s := by
        simp only [applyOp]; rw [h]
      rw [happ] at h2
      exact Or.inl (eq_of_findExpense_same h1 h2)
    | ok s' =>
      have happ : applyOp (.approveOp expenseId approvedBy) s = s' := by
        simp only [applyOp]; rw [h]
      rw [happ] at h2
      obtain ⟨e0, hfind0, -, hstate0, hs'⟩ := approve_ok h
      subst hs'
      have h2' : findBy (·.id) j
          (updBy (·.id) expenseId
            (fun ex =>
              { ex with
                  state := ExpenseState.approved
                  approved_by := some approvedBy })
            s.expenses) = some e' := h2
      rcases findBy_upd_result h1 h2' (fun x => rfl) with ⟨heq, -⟩ | ⟨heq, -, hij⟩
      · exact Or.inl heq
      · right
        have he0 : e0 = e := by
          rw [hij] at hfind0
          exact (eq_of_findExpense_same hfind0 h1).symm
        rw [heq]
        rw [he0] at hstate0
        rw [hstate0]
        rfl
  | rejectOp expenseId reason =>
    cases h : reject expenseId reason s with
    | error err =>
      have happ : applyOp (.rejectOp expenseId reason) s = s := by
        simp only [applyOp]; rw [h]
      rw [happ] at h2
      exact Or.inl (eq_of_findExpense_same h1 h2)
    | ok s' =>
      have happ : applyOp (.rejectOp expenseId reason) s = s' := by
        simp only [applyOp]; rw [h]
      rw [happ] at h2
      obtain ⟨e0, hfind0, hstate0, hs'⟩ := reject_ok h
      subst hs'
      have h2' : findBy (·.id) j
          (updBy (·.id) expenseId
            (fun ex => { ex with state := ExpenseState.rejected })
            s.expenses) = some e' := h2
      rcases findBy_upd_result h1 h2' (fun x => rfl) with ⟨heq, -⟩ | ⟨heq, -, hij⟩
      · exact Or.inl heq
      · right
        have he0 : e0 = e := by
          rw [hij] at hfind0
          exact (eq_of_findExpense_same hfind0 h1).symm
        rw [heq]
        rw [he0] at hstate0
        rcases hstate0 with hst | hst <;> rw [hst] <;> rfl
  | payOp expenseId key =>
    cases h : pay expenseId key s with
    | error err =>
      have happ : applyOp (.payOp expenseId key) s = s := by
        simp only [applyOp]; rw [h]
      rw [happ] at h2
      exact Or.inl (eq_of_findExpense_same h1 h2)
    | ok p =>
      obtain ⟨id, s'⟩ := p
      have happ : applyOp (.payOp expenseId key) s = s' := by
        simp only [applyOp]; rw [h]
      rw [happ] at h2
      obtain ⟨e0, hfind0, hcase⟩ := pay_ok h
      rcases hcase with ⟨-, rfl, -, -⟩ | ⟨hstate0, s2, hpe, hs'⟩
      · exact Or.inl (eq_of_findExpense_same h1 h2)
      · subst hs'
        have hexp2 : s2.expenses = s.expenses := (postEntry_ok_fields hpe).2.1
        have h2' : findBy (·.id) j
            (updBy (·.id) expenseId
              (fun ex =>
                { ex with
                    state := ExpenseState.paid
                    paid_journal_entry_id := some id })
              s.expenses) = some e' := by
          have hthis : findBy (·.id) j
              (updBy (·.id) expenseId
                (fun ex =>
                  { ex with
                      state := ExpenseState.paid
                      paid_journal_entry_id := some id })
                s2.expenses) = some e' := h2
          rw [hexp2] at hthis
          exact hthis
        rcases findBy_upd_result h1 h2' (fun x => rfl) with ⟨heq, -⟩ | ⟨heq, -, hij⟩
        · exact Or.inl heq
        · right
          have he0 : e0 = e := by
            rw [hij] at hfind0
            exact (eq_of_findExpense_same hfind0 h1).symm
          rw [heq]
          rw [he0] at hstate0
          rw [hstate0]
          rfl
  | getBalanceOp code asOf => exact Or.inl (eq_of_findExpense_same h1 h2)
  | getBudgetVsActualOp fyId => exact Or.inl (eq_of_findExpense_same h1 h2)
  | tickOp => exact Or.inl (eq_of_findExpense_same h1 h2)

/-- Claim C5: every reachable state change of an Expense follows the
transition relation claimed to approved, claimed to rejected, approved to
paid, approved to rejected; paid and rejected are terminal, so an Expense
observed in state paid or rejected never changes state under any
subsequent operation. -/
theorem c5_expense_transitions (op : LedgerOp) (s : LedgerState) (j : Nat)
    (e e' : Expense) (h1 : findExpense j s = some e)
    (h2 : findExpense j (applyOp op s) = some e') :
    (e'.state = e.state ∨ allowedTransition e.state e'.state = true) ∧
    ((e.state = .paid ∨ e.state = .rejected) → e'.state = e.state) := by
  rcases applyOp_expense_step op s j e e' h1 h2 with rfl | ht
  · exact ⟨Or.inl rfl, fun _ => rfl⟩
  · constructor
    · exact Or.inr ht
    · intro hterm
      rcases hterm with hp | hp <;> rw [hp] at ht <;>
        cases hstate : e'.state <;> rw [hstate] at ht <;>
        simp [allowedTransition] at ht

/-- Witness for claim C5: approving the concrete claimed expense of the
scenario moves it from claimed to approved, a legal transition. -/
theorem c5_expense_transitions_witness :
    findExpense 1 sc7 =
      some ⟨1, 4000, "5300", "books", "alice", .claimed, none, none⟩ ∧
    findExpense 1 (applyOp (.approveOp 1 "bob") sc7) =
      some ⟨1, 4000, "5300", "books", "alice", .approved, some "bob", none⟩ ∧
    (((⟨1, 4000, "5300", "books", "alice", .approved, some "bob", none⟩ :
        Expense).state =
      (⟨1, 4000, "5300", "books", "alice", .claimed, none, none⟩ :
        Expense).state ∨
      allowedTransition
        (⟨1, 4000, "5300", "books", "alice", .claimed, none, none⟩ :
          Expense).state
        (⟨1, 4000, "5300", "books", "alice", .approved, some "bob", none⟩ :
          Expense).state = true) ∧
    (((⟨1, 4000, "5300", "books", "alice", .claimed, none, none⟩ :
        Expense).state = .paid ∨
      (⟨1, 4000, "5300", "books", "alice", .claimed, none, none⟩ :
        Expense).state = .rejected) →
      (⟨1, 4000, "5300", "books", "alice", .approved, some "bob", none⟩ :
        Expense).state =
      (⟨1, 4000, "5300", "books", "alice", .claimed, none, none⟩ :
        Expense).state)) := by
  refine ⟨by decide, by decide, ?_⟩
  exact c5_expense_transitions (.approveOp 1 "bob") sc7 1 _ _ (by decide) (by decide)

/-- Claim C4: approve fails with SelfApprovalForbidden whenever the approver
identity equals the expense's requested_by, regardless of the caller's
role, and in that case the ledger state — in particular the Expense — is
unchanged. -/
theorem c4_no_self_approval (s : LedgerState) (i : Nat) (e : Expense)
    (who : String) (h1 : findExpense i s = some e)
    (h2 : who = e.requested_by) :
    approve i who s = .error .SelfApprovalForbidden ∧
    applyOp (.approveOp i who) s = s := by
  have happrove : approve i who s = .error .SelfApprovalForbidden := by
    unfold approve
    rw [h1, h2]
    simp
  refine ⟨happrove, ?_⟩
  simp only [applyOp]
  rw [happrove]

/-- Witness for claim C4: alice claiming and then approving her own
concrete expense is rejected with SelfApprovalForbidden and the state is
unchanged. -/
theorem c4_no_self_approval_witness :
    findExpense 1 sc7 =
      some ⟨1, 4000, "5300", "books", "alice", .claimed, none, none⟩ ∧
    ("alice" : String) =
      (⟨1, 4000, "5300", "books", "alice", .claimed, none, none⟩ :
        Expense).requested_by ∧
    (approve 1 "alice" sc7 = .error .SelfApprovalForbidden ∧
      applyOp (.approveOp 1 "alice") sc7 = sc7) := by
  refine ⟨by decide, rfl, ?_⟩
  exact c4_no_self_approval sc7 1
    ⟨1, 4000, "5300", "books", "alice", .claimed, none, none⟩ "alice"
    (by decide) rfl

theorem postEntry_idem {lines : List JournalLine} {memo source_ref k : String}
    {s : LedgerState} {id : Nat} {s1 : LedgerState}
    (h : postEntry lines memo source_ref (some k) s = .ok (id, s1)) :
    postEntry lines memo source_ref (some k) s1 = .ok (id, s1) := by
  obtain ⟨hlen, hact, hbal, -⟩ := postEntry_ok_cases h
  have hacc : s1.accounts = s.accounts := (postEntry_ok_fields h).1
  have hkey : lookupIdem k s1.idempotency_records = some id :=
    postEntry_ok_key h
  unfold postEntry
  rw [if_neg hlen, if_neg (not_not_intro (by rw [hacc]; exact hact)),
    if_neg (not_not_intro hbal)]
  simp [hkey]

theorem pay_idem {i : Nat} {k : String} {s : LedgerState} {id : Nat}
    {s1 : LedgerState} (h : pay i k s = .ok (id, s1)) :
    pay i k s1 = .ok (id, s1) := by
  obtain ⟨e, hfind, hcase⟩ := pay_ok h
  rcases hcase with ⟨hpaid, rfl, hlk, hpid⟩ | ⟨happr, s2, hpe, hs1⟩
  · unfold pay
    rw [hfind]
    simp [hpaid, hlk, hpid]
  · subst hs1
    have hexp2 : s2.expenses = s.expenses := (postEntry_ok_fields hpe).2.1
    have hkey_e : e.id = i := findBy_key hfind
    have hbeq : (e.id == i) = true := by simp [hkey_e]
    have hfind2 : findBy (·.id) i s2.expenses = some e := by
      rw [hexp2]
      exact hfind
    have hfe : findExpense i
        { s2 with
          expenses := updBy (·.id) i
            (fun ex =>
              { ex with
                  state := ExpenseState.paid
                  paid_journal_entry_id := some id })
            s2.expenses } =
        some { e with
          state := ExpenseState.paid
          paid_journal_entry_id := some id } := by
      show findBy (·.id) i (updBy (·.id) i
          (fun ex =>
            { ex with
                state := ExpenseState.paid
                paid_journal_entry_id := some id })
          s2.expenses) =
        some { e with
          state := ExpenseState.paid
          paid_journal_entry_id := some id }
      rw [findBy_updBy _ i i
          (fun ex =>
            { ex with
                state := ExpenseState.paid
                paid_journal_entry_id := some id })
          s2.expenses (fun x => rfl), hfind2, Option.map_some']
      simp [hbeq]
    have hlk0 : lookupIdem k s2.idempotency_records = some id :=
      postEntry_ok_key hpe
    have hlk1 : lookupIdem k
        ({ s2 with
          expenses := updBy (·.id) i
            (fun ex =>
              { ex with
                  state := ExpenseState.paid
                  paid_journal_entry_id := some id })
            s2.expenses }).idempotency_records = some id := hlk0
    unfold pay
    rw [hfe]
    simp [hlk1]

theorem postBatch_repeat {b : Nat} {k : String} {s : LedgerState} {id : Nat}
    {s1 : LedgerState} (h : postBatch b k s = .ok (id, s1)) :
    postBatch b k s1 = .error .BatchAlreadyPosted := by
  obtain ⟨bb, s2, hfind, -, -, hpe, hs1⟩ := postBatch_ok h
  subst hs1
  have hbat2 : s2.batches = s.batches := (postEntry_ok_fields hpe).2.2.1
  have hkey_b : bb.id = b := findBy_key hfind
  have hbeq : (bb.id == b) = true := by simp [hkey_b]
  have hfind2 : findBy (·.id) b s2.batches = some bb := by
    rw [hbat2]
    exact hfind
  have hfb : findBatch b
      { s2 with
        batches := updBy (·.id) b
          (fun x => { x with posted_journal_entry_id := some id })
          s2.batches } =
      some { bb with posted_journal_entry_id := some id } := by
    show findBy (·.id) b (updBy (·.id) b
        (fun x => { x with posted_journal_entry_id := some id })
        s2.batches) =
      some { bb with posted_journal_entry_id := some id }
    rw [findBy_updBy _ b b
        (fun x => { x with posted_journal_entry_id := some id })
        s2.batches (fun x => rfl), hfind2, Option.map_some']
    simp [hbeq]
  unfold postBatch
  rw [hfb]
  simp

/-- Claim C3 (amended): postEntry and pay called a second time with the same
idempotency key and identical arguments return the same entry id and the
same state (so balances change only once); a repeated postBatch after a
successful post fails with BatchAlreadyPosted — its already-posted check
runs before the engine's idempotency guard — and changes nothing, so the
ledger state still changes only once for all three operations. -/
theorem c3_amended_idempotence :
    (∀ (lines : List JournalLine) (memo source_ref k : String)
      (s : LedgerState) (id : Nat) (s1 : LedgerState),
      postEntry lines memo source_ref (some k) s = .ok (id, s1) →
      postEntry lines memo source_ref (some k) s1 = .ok (id, s1)) ∧
    (∀ (i : Nat) (k : String) (s : LedgerState) (id : Nat) (s1 : LedgerState),
      pay i k s = .ok (id, s1) → pay i k s1 = .ok (id, s1)) ∧
    (∀ (b : Nat) (k : String) (s : LedgerState) (id : Nat) (s1 : LedgerState),
      postBatch b k s = .ok (id, s1) →
      postBatch b k s1 = .error .BatchAlreadyPosted) :=
  ⟨fun _ _ _ _ _ _ _ h => postEntry_idem h,
   fun _ _ _ _ _ h => pay_idem h,
   fun _ _ _ _ _ h => postBatch_repeat h⟩

/-- Claim C3 as stated is false on the model for postBatch: after the
concrete batch of the scenario is posted successfully with key "bk", the
identical retry with the same key fails with BatchAlreadyPosted instead of
returning the same entry id. -/
theorem c3_claim_counterexample :
    postBatch 1 "bk" sc5 = .ok (2, sc6) ∧
    postBatch 1 "bk" sc6 = .error .BatchAlreadyPosted ∧
    postBatch 1 "bk" sc6 ≠ .ok (2, sc6) := by
  refine ⟨rfl, rfl, ?_⟩
  intro hcontra
  rw [show postBatch 1 "bk" sc6 = Except.error LedgerError.BatchAlreadyPosted
    from rfl] at hcontra
  exact Except.noConfusion hcontra

/-- Witness for the amended claim C3 on the concrete scenario: retried
postEntry and pay return the identical result, and the retried postBatch
fails with BatchAlreadyPosted. -/
theorem c3_amended_idempotence_witness :
    (postEntry scSeedLines "seed" "manual" (some "pk") sc3 = .ok (1, sc4) ∧
      postEntry scSeedLines "seed" "manual" (some "pk") sc4 = .ok (1, sc4)) ∧
    (pay 1 "payk" sc10 = .ok (3, sc11) ∧ pay 1 "payk" sc11 = .ok (3, sc11)) ∧
    (postBatch 1 "bk" sc5 = .ok (2, sc6) ∧
      postBatch 1 "bk" sc6 = .error .BatchAlreadyPosted) := by
  refine ⟨⟨rfl, c3_amended_idempotence.1 scSeedLines "seed" "manual" "pk"
      sc3 1 sc4 rfl⟩,
    ⟨rfl, c3_amended_idempotence.2.1 1 "payk" sc10 3 sc11 rfl⟩,
    ⟨rfl, c3_amended_idempotence.2.2 1 "bk" sc5 2 sc6 rfl⟩⟩

/-- Witness for claim C9: a sobriety date exactly one day in the future
gives the same positive one-day count as one day in the past. -/
theorem c9_sobriety_day_count_witness :
    ((86400000 : Int) ≠ 0) ∧
    0 < calculateSobrietyDays 0 (0 + 86400000) ∧
    calculateSobrietyDays 0 (0 + 86400000) =
      calculateSobrietyDays 0 (0 - 86400000) := by
  refine ⟨by decide, ?_, (c9_sobriety_day_count 0 86400000 86400000 1).2.1⟩
  exact (c9_sobriety_day_count 0 86400000 86400000 1).2.2 (by decide)
